import Mathlib

/-!
Shallow embedding of the Bat Algorithm routing core (`BatRouting.cc` /
`BatRouting.h`) of the drone-swarm repository.

Node identifiers are `Int` (C++ `int`); `double`-valued quantities of the
route-table subsystem (fitness, timestamps, weights) are modelled as exact
rationals `ℚ`; the bat-parameter adaptation, which uses the real exponential,
is modelled over `ℝ`.  The per-node route table `std::map<int,
std::vector<RouteInfo>>` is modelled as `Int → Option (List RouteInfo)`:
`none` means the key is absent from the map, `some l` means the key is
present and maps to the vector `l` (which is how `operator[]`-insertion of an
empty vector stays distinguishable from an absent key).
-/

namespace BatRouting

/-- The `RouteInfo` record of `BatRouting.h`: one candidate path with its
metrics.  The default constructor sets `fitness = 1e9` and the other
numeric fields to `0`. -/
structure RouteInfo where
  path : List Int
  fitness : ℚ
  hopCount : ℚ
  linkQuality : ℚ
  energyCost : ℚ
  lastUpdate : ℚ
deriving DecidableEq, Repr

/-- The `RouteDiscoveryPacket` of `BatRouting.h` (the RREQ message). -/
structure RouteDiscoveryPacket where
  sourceId : Int
  destId : Int
  visitedNodes : List Int
  accumulatedFitness : ℚ
deriving DecidableEq, Repr

/-- The `DataPacket` of `BatRouting.h`. -/
structure DataPacket where
  sourceId : Int
  destId : Int
  currentHop : Int
  routePath : List Int
deriving DecidableEq, Repr

/-- The per-node route table `std::map<int, std::vector<RouteInfo>>`:
`none` = destination key absent, `some l` = key present with vector `l`. -/
def RouteTable : Type := Int → Option (List RouteInfo)

/-- The comparator of the two `std::sort` calls in `BatRouting.cc`
(`a.fitness < b.fitness`), taken as its reflexive closure so that sorting
lemmas apply; sortedness with respect to it is exactly
"non-decreasing in fitness". -/
def fitLE (a b : RouteInfo) : Prop := a.fitness ≤ b.fitness

instance : DecidableRel fitLE := fun a b =>
  inferInstanceAs (Decidable (a.fitness ≤ b.fitness))

instance : IsTotal RouteInfo fitLE := ⟨fun a b => le_total a.fitness b.fitness⟩

instance : IsTrans RouteInfo fitLE := ⟨fun _ _ _ h h2 => le_trans h h2⟩

/-- The sort performed by `std::sort(routes.begin(), routes.end(), cmp)`
with `cmp = (a.fitness < b.fitness)`: some rearrangement of the vector that
is non-decreasing in fitness (tie order is unspecified in C++; we model it
with insertion sort, which realises one such rearrangement). -/
def sortByFitness (l : List RouteInfo) : List RouteInfo :=
  List.insertionSort fitLE l

/-- Embedding of `BatRouting::updateRouteTable(dest, route)`: `routeTable[dest]`
(creating an empty vector if the key is absent), `push_back(route)`,
sort ascending by fitness, then `resize(maxRoutesPerDestination)` when the
size exceeds the bound `K`. -/
def updateRouteTable (K : ℕ) (tbl : RouteTable) (dest : Int)
    (route : RouteInfo) : RouteTable :=
  let routes := ((tbl dest).getD []) ++ [route]
  let sorted := sortByFitness routes
  let final := if K < sorted.length then sorted.take K else sorted
  fun d => if d = dest then some final else tbl d

/-- Embedding of `BatRouting::selectBestRoute(dest)`: the front of the stored vector for
`dest`, or null (`none`) when the key is absent or the vector empty. -/
def selectBestRoute (tbl : RouteTable) (dest : Int) : Option RouteInfo :=
  match tbl dest with
  | none => none
  | some [] => none
  | some (r :: _) => some r

/-- Embedding of `BatRouting::routeDataPacket(pkt)`: look up the best route; on success
set the packet's `routePath` to the route's path and `currentHop` to `0`;
the packet is deleted in both branches.  The result pairs the (untouched)
route table with the final state of the packet at deletion time, `none`
when no route was found (the drop case mutates nothing). -/
def routeDataPacket (tbl : RouteTable) (pkt : DataPacket) :
    RouteTable × Option DataPacket :=
  match selectBestRoute tbl pkt.destId with
  | some r => (tbl, some { pkt with routePath := r.path, currentHop := 0 })
  | none => (tbl, none)

/-- The four fitness weights read from the module parameters. -/
structure FitnessConfig where
  hopCountWeight : ℚ
  linkQualityWeight : ℚ
  energyWeight : ℚ
  mobilityWeight : ℚ
deriving DecidableEq, Repr

/-- Embedding of `BatRouting::calculateNodeMobility(nodeId)`: placeholder constant
`0.1`. -/
def calculateNodeMobility (_nodeId : Int) : ℚ := 1 / 10

/-- Embedding of `BatRouting::calculateRouteFitness(route)`: hop-count, link-quality,
energy terms, then a loop over `route.path` adding one mobility term per
node. -/
def calculateRouteFitness (cfg : FitnessConfig) (route : RouteInfo) : ℚ :=
  let f0 := route.hopCount * cfg.hopCountWeight
  let f1 := f0 + (1 / (route.linkQuality + 1 / 10)) * cfg.linkQualityWeight
  let f2 := f1 + route.energyCost * cfg.energyWeight
  route.path.foldl
    (fun acc n => acc + calculateNodeMobility n * cfg.mobilityWeight) f2

/-- Embedding of `BatRouting::optimizeRouteTable()`: for every stored destination,
recompute each route's fitness with `calculateRouteFitness` and re-sort the
vector by fitness. -/
def optimizeRouteTable (cfg : FitnessConfig) (tbl : RouteTable) : RouteTable :=
  fun d =>
    (tbl d).map fun routes =>
      sortByFitness
        (routes.map fun r => { r with fitness := calculateRouteFitness cfg r })

/-- Embedding of `BatRouting::cleanupExpiredRoutes()`: erase-remove every route with
`now - lastUpdate > routeTimeout`; if a destination's vector becomes empty,
erase the map key. -/
def cleanupExpiredRoutes (now timeout : ℚ) (tbl : RouteTable) : RouteTable :=
  fun d =>
    match tbl d with
    | none => none
    | some routes =>
        let kept := routes.filter fun r => decide (now - r.lastUpdate ≤ timeout)
        if kept.isEmpty then none else some kept

/-- Embedding of `BatRouting::broadcastRouteDiscovery(destId)`: the constructed RREQ
packet (`sourceId = myNodeId`, `visitedNodes = [myNodeId]`,
`accumulatedFitness = 0`). -/
def broadcastRouteDiscovery (myNodeId destId : Int) : RouteDiscoveryPacket :=
  { sourceId := myNodeId
  , destId := destId
  , visitedNodes := [myNodeId]
  , accumulatedFitness := 0 }

/-- Embedding of `BatRouting::discoverRoutes()`: iterate `destId` over
`0 .. numNodes-1`, skip `myNodeId`, and emit a discovery packet exactly
when the per-destination uniform draw is below the current pulse rate
(`draw destId` is the value of `uniform(0,1)` used in the gate; the unused
frequency draw has no effect on the emitted packets). -/
def discoverRoutes (numNodes : ℕ) (myNodeId : Int) (pulseRate : ℚ)
    (draw : ℕ → ℚ) : List RouteDiscoveryPacket :=
  (List.range numNodes).filterMap fun destId =>
    if (Int.ofNat destId) = myNodeId then none
    else if draw destId < pulseRate then
      some (broadcastRouteDiscovery myNodeId (Int.ofNat destId))
    else none

/-- The ensemble of per-node route tables, indexed by node id (used to
express the cross-node table update that `processRouteDiscovery` performs
at the message's source node). -/
def Network : Type := Int → RouteTable

/-- Embedding of `BatRouting::processRouteDiscovery(pkt)` run at node `self`: loop
check against `visitedNodes` (discard, no mutation); append `self`;
accumulate the relay fitness term when more than one node has been
visited; when `destId == self`, build a `RouteInfo` and install it with
`updateRouteTable(self, route)` on the *source* node's table.  The result
pairs the post-state of all tables with the final state of the packet at
the moment it is deleted (every branch deletes it). -/
def processRouteDiscovery (self : Int) (lq : Int → Int → ℚ) (wHop : ℚ)
    (now : ℚ) (K : ℕ) (net : Network) (pkt : RouteDiscoveryPacket) :
    Network × RouteDiscoveryPacket :=
  if self ∈ pkt.visitedNodes then (net, pkt)
  else
    let visited := pkt.visitedNodes ++ [self]
    let acc :=
      if 1 < visited.length then
        let prevNode := visited.getD (visited.length - 2) 0
        pkt.accumulatedFitness + (1 / (lq prevNode self + 1 / 10)) * wHop
      else pkt.accumulatedFitness
    let pkt2 := { pkt with visitedNodes := visited, accumulatedFitness := acc }
    if pkt.destId = self then
      let route : RouteInfo :=
        { path := visited
        , fitness := acc
        , hopCount := ((visited.length - 1 : ℕ) : ℚ)
        , linkQuality := 0
        , energyCost := 0
        , lastUpdate := now }
      ( fun nid =>
          if nid = pkt.sourceId then
            updateRouteTable K (net pkt.sourceId) self route
          else net nid
      , pkt2 )
    else (net, pkt2)

/-- Embedding of `BatRouting::updateBatParameters()` over `ℝ`: multiply loudness by
`alpha` and recompute pulse rate from the adaptation time, then clamp
loudness below by `0.1` and pulse rate above by `0.95`.  State is the pair
`(currentLoudness, currentPulseRate)`. -/
noncomputable def updateBatParameters (alpha gamma initialPulseRate : ℝ)
    (t : ℝ) (st : ℝ × ℝ) : ℝ × ℝ :=
  let loud := alpha * st.1
  let pulse := initialPulseRate * (1 - Real.exp (-gamma * t))
  (if loud < 0.1 then 0.1 else loud, if pulse > 0.95 then 0.95 else pulse)

/-- The trajectory of `(currentLoudness, currentPulseRate)`: state `0` is
the configured initial pair, and the `n`-th adaptation call runs at
simulation time `times n`. -/
noncomputable def batParamSeq (alpha gamma L0 P0 : ℝ) (times : ℕ → ℝ) :
    ℕ → ℝ × ℝ
  | 0 => (L0, P0)
  | n + 1 =>
      updateBatParameters alpha gamma P0 (times n)
        (batParamSeq alpha gamma L0 P0 times n)

/-- Shared concrete material for witnesses: the empty route table. -/
def emptyTable : RouteTable := fun _ => none

/-- Shared concrete material for witnesses: a sample route. -/
def sampleRoute : RouteInfo :=
  { path := [0, 1], fitness := 5, hopCount := 1, linkQuality := 1
  , energyCost := 0, lastUpdate := 0 }

/-- Shared concrete material for witnesses: a network of empty tables. -/
def emptyNetwork : Network := fun _ => emptyTable

/-- Shared concrete material for witnesses: a weight configuration. -/
def cfg0 : FitnessConfig :=
  { hopCountWeight := 1, linkQualityWeight := 1, energyWeight := 1
  , mobilityWeight := 1 }

/-- Shared concrete material for witnesses: a table holding one route for
destination 0. -/
def oneTable : RouteTable := fun d => if d = 0 then some [sampleRoute] else none

/-- Shared concrete material for witnesses: a discovery packet whose
visited list already contains node 5. -/
def pkt1 : RouteDiscoveryPacket :=
  { sourceId := 5, destId := 9, visitedNodes := [5], accumulatedFitness := 0 }

lemma sortByFitness_sorted (l : List RouteInfo) :
    List.Sorted fitLE (sortByFitness l) :=
  List.sorted_insertionSort fitLE l

lemma sortByFitness_perm (l : List RouteInfo) :
    List.Perm (sortByFitness l) l :=
  List.perm_insertionSort fitLE l

lemma foldl_add_map (f : Int → ℚ) (l : List Int) (a : ℚ) :
    l.foldl (fun acc n => acc + f n) a = a + (l.map f).sum := by
  induction l generalizing a with
  | nil => simp
  | cons x t ih => simp [ih, add_assoc]

lemma getD_pred_eq_getLastD :
    ∀ (v : List Int), v ≠ [] → v.getD (v.length - 1) 0 = v.getLastD 0
  | [], hv => absurd rfl hv
  | [a], _ => rfl
  | a :: b :: t, _ => by
      have ih := getD_pred_eq_getLastD (b :: t) (by simp)
      simpa [List.getLastD, List.getD] using ih

lemma getD_append_singleton_pred (v : List Int) (x : Int) (hv : v ≠ []) :
    (v ++ [x]).getD ((v ++ [x]).length - 2) 0 = v.getLastD 0 := by
  have hlen : (v ++ [x]).length - 2 = v.length - 1 := by
    simp [List.length_append]
  have hlt : v.length - 1 < v.length := by
    cases v with
    | nil => exact absurd rfl hv
    | cons a t => simp
  rw [hlen, List.getD_append _ _ _ _ hlt]
  exact getD_pred_eq_getLastD v hv

/-- Shared concrete material for witnesses: a loop-free discovery packet
from node 0 to node 2 that has visited nodes 0 and 1. -/
def pkt2 : RouteDiscoveryPacket :=
  { sourceId := 0, destId := 2, visitedNodes := [0, 1]
  , accumulatedFitness := 3 }

end BatRouting

namespace BatRouting

/-- C1: a discovery message whose `visitedNodes` already contains the
processing node's id is discarded by `processRouteDiscovery` with no
mutation of the message or of any route table; and processing preserves
duplicate-freeness of `visitedNodes`, so no id ever appears twice in the
visited list of a processed message. -/
theorem processRouteDiscovery_loop_discard (self : Int) (lq : Int → Int → ℚ)
    (wHop now : ℚ) (K : ℕ) (net : Network) (pkt : RouteDiscoveryPacket) :
    (self ∈ pkt.visitedNodes →
      processRouteDiscovery self lq wHop now K net pkt = (net, pkt))
    ∧ (pkt.visitedNodes.Nodup →
      (processRouteDiscovery self lq wHop now K net pkt).2.visitedNodes.Nodup) := by
  constructor
  · intro h
    simp [processRouteDiscovery, h]
  · intro hnd
    by_cases h : self ∈ pkt.visitedNodes
    · simp only [processRouteDiscovery, if_pos h]
      exact hnd
    · have hv : (pkt.visitedNodes ++ [self]).Nodup := by
        simp [List.nodup_append, hnd, h]
      simp only [processRouteDiscovery, if_neg h]
      split <;> simpa using hv

/-- Witness for C1 at a concrete input: node 5 processing a packet that
has already visited node 5. -/
theorem processRouteDiscovery_loop_discard_witness :
    ((5 : Int) ∈ pkt1.visitedNodes
      ∧ processRouteDiscovery 5 (fun _ _ => 0) 1 0 2 emptyNetwork pkt1
          = (emptyNetwork, pkt1))
    ∧ (pkt1.visitedNodes.Nodup
      ∧ (processRouteDiscovery 5 (fun _ _ => 0) 1 0 2 emptyNetwork
          pkt1).2.visitedNodes.Nodup) :=
  ⟨⟨by decide,
    (processRouteDiscovery_loop_discard 5 (fun _ _ => 0) 1 0 2 emptyNetwork
      pkt1).1 (by decide)⟩,
   ⟨by decide,
    (processRouteDiscovery_loop_discard 5 (fun _ _ => 0) 1 0 2 emptyNetwork
      pkt1).2 (by decide)⟩⟩

/-- C2: after `updateRouteTable dest route`, the sequence stored for
`dest` is the first `K` elements of the fitness-sorted extended sequence,
its length is at most `K`, and the discarded tail together with it is a
permutation of the extended sequence with every kept fitness at most every
discarded fitness (the truncation drops exactly the worst entries). -/
theorem updateRouteTable_bounded_truncates_worst (K : ℕ) (tbl : RouteTable)
    (dest : Int) (route : RouteInfo) :
    updateRouteTable K tbl dest route dest
        = some ((sortByFitness (((tbl dest).getD []) ++ [route])).take K)
    ∧ ((sortByFitness (((tbl dest).getD []) ++ [route])).take K).length ≤ K
    ∧ List.Perm
        (((sortByFitness (((tbl dest).getD []) ++ [route])).take K)
          ++ ((sortByFitness (((tbl dest).getD []) ++ [route])).drop K))
        (((tbl dest).getD []) ++ [route])
    ∧ ∀ a ∈ (sortByFitness (((tbl dest).getD []) ++ [route])).take K,
        ∀ b ∈ (sortByFitness (((tbl dest).getD []) ++ [route])).drop K,
          a.fitness ≤ b.fitness := by
  refine ⟨?_, ?_, ?_, ?_⟩
  · simp only [updateRouteTable, if_pos rfl]
    congr 1
    split
    · rfl
    · rename_i hlen
      exact (List.take_of_length_le (not_lt.mp hlen)).symm
  · rw [List.length_take]
    exact min_le_left _ _
  · rw [List.take_append_drop]
    exact sortByFitness_perm _
  · have hs := sortByFitness_sorted (((tbl dest).getD []) ++ [route])
    rw [← List.take_append_drop K
      (sortByFitness (((tbl dest).getD []) ++ [route]))] at hs
    exact fun a ha b hb => (List.pairwise_append.mp hs).2.2 a ha b hb

/-- C3: the sorted-ascending-by-fitness invariant: if every stored
sequence is sorted, then after `updateRouteTable` every stored sequence is
still sorted; and after `optimizeRouteTable` every stored sequence is
sorted unconditionally. -/
theorem routeTable_sorted_after_update_and_reoptimize (K : ℕ)
    (tbl : RouteTable) (dest : Int) (route : RouteInfo) (cfg : FitnessConfig)
    (h : ∀ d l, tbl d = some l → List.Sorted fitLE l) :
    (∀ d l, updateRouteTable K tbl dest route d = some l →
      List.Sorted fitLE l)
    ∧ (∀ d l, optimizeRouteTable cfg tbl d = some l →
      List.Sorted fitLE l) := by
  constructor
  · intro d l hl
    by_cases hd : d = dest
    · subst hd
      simp only [updateRouteTable, if_pos rfl, Option.some.injEq] at hl
      subst hl
      split
      · exact (sortByFitness_sorted _).sublist (List.take_sublist _ _)
      · exact sortByFitness_sorted _
    · simp only [updateRouteTable, if_neg hd] at hl
      exact h d l hl
  · intro d l hl
    simp only [optimizeRouteTable] at hl
    cases htd : tbl d with
    | none => rw [htd] at hl; simp at hl
    | some routes =>
        rw [htd] at hl
        simp only [Option.map_some', Option.some.injEq] at hl
        subst hl
        exact sortByFitness_sorted _

/-- Witness for C3 at a concrete input: the empty table (vacuously
sorted), one insertion with bound 2, and one optimizer pass. -/
theorem routeTable_sorted_witness :
    (∀ d l, emptyTable d = some l → List.Sorted fitLE l)
    ∧ ((∀ d l, updateRouteTable 2 emptyTable 0 sampleRoute d = some l →
          List.Sorted fitLE l)
      ∧ (∀ d l, optimizeRouteTable cfg0 emptyTable d = some l →
          List.Sorted fitLE l)) :=
  ⟨fun d l hl => by simp [emptyTable] at hl,
   routeTable_sorted_after_update_and_reoptimize 2 emptyTable 0 sampleRoute
     cfg0 (fun d l hl => by simp [emptyTable] at hl)⟩

/-- Counterexample to C4 as stated: with `maxRoutesPerDestination = 0`,
`updateRouteTable` leaves the destination key present and mapped to the
empty sequence (the C++ `operator[]` inserts the key and `resize(0)`
empties the vector; nothing erases the key). -/
theorem updateRouteTable_zeroK_empty_entry :
    updateRouteTable 0 emptyTable 0 sampleRoute 0 = some [] := by
  decide

/-- C4 amended: provided `maxRoutesPerDestination ≥ 1` and the table held
no empty sequence beforehand, none of `updateRouteTable`,
`optimizeRouteTable`, `cleanupExpiredRoutes` leaves a destination mapped
to an empty sequence. -/
theorem routeTable_no_empty_entries (K : ℕ) (tbl : RouteTable) (dest : Int)
    (route : RouteInfo) (cfg : FitnessConfig) (now timeout : ℚ)
    (hK : 0 < K) (h : ∀ d, tbl d ≠ some []) :
    (∀ d, updateRouteTable K tbl dest route d ≠ some [])
    ∧ (∀ d, optimizeRouteTable cfg tbl d ≠ some [])
    ∧ (∀ d, cleanupExpiredRoutes now timeout tbl d ≠ some []) := by
  refine ⟨?_, ?_, ?_⟩
  · intro d
    by_cases hd : d = dest
    · subst hd
      simp only [updateRouteTable, if_pos rfl, ne_eq, Option.some.injEq]
      have hlen : 0 < (sortByFitness (((tbl d).getD []) ++ [route])).length := by
        rw [(sortByFitness_perm _).length_eq]
        simp
      intro hfin
      split at hfin
      · have := congrArg List.length hfin
        simp only [List.length_take, List.length_nil] at this
        omega
      · have := congrArg List.length hfin
        simp only [List.length_nil] at this
        omega
    · simp only [updateRouteTable, if_neg hd]
      exact h d
  · intro d
    simp only [optimizeRouteTable]
    cases htd : tbl d with
    | none => simp
    | some routes =>
        simp only [Option.map_some', ne_eq, Option.some.injEq]
        intro hempty
        have hlen := congrArg List.length hempty
        rw [(sortByFitness_perm _).length_eq] at hlen
        simp only [List.length_map, List.length_nil] at hlen
        exact h d (by rw [htd, List.length_eq_zero.mp hlen])
  · intro d
    simp only [cleanupExpiredRoutes]
    cases htd : tbl d with
    | none => simp
    | some routes =>
        simp only []
        split
        · simp
        · rename_i hne
          simp only [ne_eq, Option.some.injEq]
          intro hkept
          rw [hkept] at hne
          simp at hne

/-- Witness for C4's amended theorem at a concrete input: bound 1 and the
empty table. -/
theorem routeTable_no_empty_entries_witness :
    0 < 1
    ∧ (∀ d, emptyTable d ≠ some [])
    ∧ ((∀ d, updateRouteTable 1 emptyTable 0 sampleRoute d ≠ some [])
      ∧ (∀ d, optimizeRouteTable cfg0 emptyTable d ≠ some [])
      ∧ (∀ d, cleanupExpiredRoutes 0 1 emptyTable d ≠ some [])) :=
  ⟨by decide, fun d => by simp [emptyTable],
   routeTable_no_empty_entries 1 emptyTable 0 sampleRoute cfg0 0 1
     (by decide) (fun d => by simp [emptyTable])⟩

/-- C9: the route fitness equals the weighted sum of hop count, inverse
link quality, energy cost and the per-node mobility terms over the path,
with the mobility estimator constantly `0.1`. -/
theorem calculateRouteFitness_formula (cfg : FitnessConfig)
    (route : RouteInfo) :
    (∀ n, calculateNodeMobility n = 1 / 10)
    ∧ calculateRouteFitness cfg route
        = route.hopCount * cfg.hopCountWeight
          + (1 / (route.linkQuality + 1 / 10)) * cfg.linkQualityWeight
          + route.energyCost * cfg.energyWeight
          + (route.path.map
              fun n => calculateNodeMobility n * cfg.mobilityWeight).sum :=
  ⟨fun _ => rfl, by
    unfold calculateRouteFitness
    rw [foldl_add_map (fun n => calculateNodeMobility n * cfg.mobilityWeight)]⟩

/-- C10: data forwarding leaves the route table unchanged; when the
destination has a stored non-empty sequence the packet is finalized with
the front route's path (which has minimal fitness, given the sorted
invariant) and hop cursor `0`; when the destination is absent or its
sequence empty, the outcome is a drop (`none`). -/
theorem routeDataPacket_spec (tbl : RouteTable) (pkt : DataPacket)
    (h : ∀ d l, tbl d = some l → List.Sorted fitLE l) :
    (routeDataPacket tbl pkt).1 = tbl
    ∧ (∀ r rs, tbl pkt.destId = some (r :: rs) →
        (routeDataPacket tbl pkt).2
            = some { pkt with routePath := r.path, currentHop := 0 }
        ∧ ∀ r2 ∈ r :: rs, r.fitness ≤ r2.fitness)
    ∧ (tbl pkt.destId = none → (routeDataPacket tbl pkt).2 = none)
    ∧ (tbl pkt.destId = some [] → (routeDataPacket tbl pkt).2 = none) := by
  refine ⟨?_, ?_, ?_, ?_⟩
  · simp only [routeDataPacket]
    cases selectBestRoute tbl pkt.destId <;> rfl
  · intro r rs htd
    have hsel : selectBestRoute tbl pkt.destId = some r := by
      simp [selectBestRoute, htd]
    constructor
    · simp [routeDataPacket, hsel]
    · intro r2 hr2
      have hsorted := h pkt.destId (r :: rs) htd
      rcases List.mem_cons.mp hr2 with h1 | h2
      · rw [h1]
      · exact List.rel_of_sorted_cons hsorted r2 h2
  · intro htd
    simp [routeDataPacket, selectBestRoute, htd]
  · intro htd
    simp [routeDataPacket, selectBestRoute, htd]

/-- Witness for C10 at a concrete input: a one-entry sorted table and a
packet destined to that entry. -/
theorem routeDataPacket_spec_witness :
    (∀ d l, oneTable d = some l → List.Sorted fitLE l)
    ∧ ((routeDataPacket oneTable
          { sourceId := 1, destId := 0, currentHop := 3, routePath := [] }).1
        = oneTable
      ∧ (∀ r rs, oneTable (0 : Int) = some (r :: rs) →
          (routeDataPacket oneTable
            { sourceId := 1, destId := 0, currentHop := 3, routePath := [] }).2
              = some { sourceId := 1, destId := 0, currentHop := 0
                     , routePath := r.path }
          ∧ ∀ r2 ∈ r :: rs, r.fitness ≤ r2.fitness)
      ∧ (oneTable (0 : Int) = none →
          (routeDataPacket oneTable
            { sourceId := 1, destId := 0, currentHop := 3, routePath := [] }).2
            = none)
      ∧ (oneTable (0 : Int) = some [] →
          (routeDataPacket oneTable
            { sourceId := 1, destId := 0, currentHop := 3, routePath := [] }).2
            = none)) :=
  ⟨fun d l hl => by
      by_cases hd : d = 0
      · subst hd
        rw [show oneTable 0 = some [sampleRoute] from rfl] at hl
        injection hl with hl2
        subst hl2
        exact List.sorted_singleton sampleRoute
      · simp [oneTable, hd] at hl,
   routeDataPacket_spec oneTable
     { sourceId := 1, destId := 0, currentHop := 3, routePath := [] }
     (fun d l hl => by
      by_cases hd : d = 0
      · subst hd
        rw [show oneTable 0 = some [sampleRoute] from rfl] at hl
        injection hl with hl2
        subst hl2
        exact List.sorted_singleton sampleRoute
      · simp [oneTable, hd] at hl)⟩

end BatRouting

namespace BatRouting

/-- C6: at the destination (`destId = self`) with no loop detected,
`processRouteDiscovery` installs into the *source* node's table, keyed by
the destination's id, a route whose path is the incoming visited list with
`self` appended, whose hop count is the path length minus one, whose
fitness is the accumulated fitness including the final-hop relay term
`(1/(linkQuality+0.1))*hopCountWeight`, and whose timestamp is the current
time; all other tables are unchanged and the message is discarded in its
final (appended) state. -/
theorem processRouteDiscovery_dest_install (self : Int) (lq : Int → Int → ℚ)
    (wHop now : ℚ) (K : ℕ) (net : Network) (pkt : RouteDiscoveryPacket)
    (hloop : self ∉ pkt.visitedNodes) (hdest : pkt.destId = self)
    (hne : pkt.visitedNodes ≠ []) :
    processRouteDiscovery self lq wHop now K net pkt
      = ( fun nid =>
            if nid = pkt.sourceId then
              updateRouteTable K (net pkt.sourceId) self
                { path := pkt.visitedNodes ++ [self]
                , fitness := pkt.accumulatedFitness
                    + (1 / (lq (pkt.visitedNodes.getLastD 0) self + 1 / 10))
                      * wHop
                , hopCount := ((pkt.visitedNodes ++ [self]).length - 1 : ℕ)
                , linkQuality := 0
                , energyCost := 0
                , lastUpdate := now }
            else net nid
        , { pkt with
            visitedNodes := pkt.visitedNodes ++ [self]
          , accumulatedFitness := pkt.accumulatedFitness
              + (1 / (lq (pkt.visitedNodes.getLastD 0) self + 1 / 10))
                * wHop } ) := by
  have hlen : 1 < (pkt.visitedNodes ++ [self]).length := by
    rcases List.exists_cons_of_ne_nil hne with ⟨a, t, hvt⟩
    rw [hvt]
    simp
  have hprev := getD_append_singleton_pred pkt.visitedNodes self hne
  simp only [processRouteDiscovery, if_neg hloop, if_pos hlen, if_pos hdest,
    hprev]

/-- Witness for C6 at a concrete input: node 2 terminating a discovery
from source 0 with visited list `[0, 1]`. -/
theorem processRouteDiscovery_dest_install_witness :
    ((2 : Int) ∉ pkt2.visitedNodes ∧ pkt2.destId = 2
      ∧ pkt2.visitedNodes ≠ [])
    ∧ processRouteDiscovery 2 (fun _ _ => 0) 1 7 2 emptyNetwork pkt2
        = ( fun nid =>
              if nid = pkt2.sourceId then
                updateRouteTable 2 (emptyNetwork pkt2.sourceId) 2
                  { path := pkt2.visitedNodes ++ [2]
                  , fitness := pkt2.accumulatedFitness
                      + (1 / ((fun _ _ => (0 : ℚ)) (pkt2.visitedNodes.getLastD 0)
                          2 + 1 / 10)) * 1
                  , hopCount := ((pkt2.visitedNodes ++ [2]).length - 1 : ℕ)
                  , linkQuality := 0
                  , energyCost := 0
                  , lastUpdate := 7 }
              else emptyNetwork nid
          , { pkt2 with
              visitedNodes := pkt2.visitedNodes ++ [2]
            , accumulatedFitness := pkt2.accumulatedFitness
                + (1 / ((fun _ _ => (0 : ℚ)) (pkt2.visitedNodes.getLastD 0) 2
                    + 1 / 10)) * 1 } ) :=
  ⟨⟨by decide, by decide, by decide⟩,
   processRouteDiscovery_dest_install 2 (fun _ _ => 0) 1 7 2 emptyNetwork
     pkt2 (by decide) (by decide) (by decide)⟩

/-- C7: in a discovery cycle, a discovery packet is in the emitted list
exactly when its destination is a known id distinct from the node's own id
whose uniform draw fell below the current pulse rate, and every emitted
packet has `sourceId = self`, `visitedNodes = [self]` and
`accumulatedFitness = 0`. -/
theorem discoverRoutes_char (numNodes : ℕ) (myNodeId : Int) (pulseRate : ℚ)
    (draw : ℕ → ℚ) (pkt : RouteDiscoveryPacket) :
    pkt ∈ discoverRoutes numNodes myNodeId pulseRate draw
      ↔ ∃ d : ℕ, d < numNodes ∧ Int.ofNat d ≠ myNodeId
          ∧ draw d < pulseRate
          ∧ pkt = { sourceId := myNodeId, destId := Int.ofNat d
                  , visitedNodes := [myNodeId], accumulatedFitness := 0 } := by
  simp only [discoverRoutes, List.mem_filterMap, List.mem_range,
    broadcastRouteDiscovery]
  constructor
  · rintro ⟨d, hd, hopt⟩
    by_cases h1 : Int.ofNat d = myNodeId
    · rw [if_pos h1] at hopt
      exact absurd hopt (by simp)
    · rw [if_neg h1] at hopt
      by_cases h2 : draw d < pulseRate
      · rw [if_pos h2] at hopt
        injection hopt with hopt2
        exact ⟨d, hd, h1, h2, hopt2.symm⟩
      · rw [if_neg h2] at hopt
        exact absurd hopt (by simp)
  · rintro ⟨d, hd, h1, h2, hpkt⟩
    refine ⟨d, hd, ?_⟩
    rw [if_neg h1, if_pos h2, hpkt]

/-- C8: `cleanupExpiredRoutes` retains a stored route exactly when
`now - lastUpdate ≤ routeTimeout` (so a route stamped `t0` survives the
sweep at `now = t0 + routeTimeout` and is gone at any strictly later
sweep), removes the destination key exactly when every stored route is
expired, and every retained route is one of the originally stored
routes. -/
theorem cleanupExpiredRoutes_spec (now timeout t0 : ℚ) (tbl : RouteTable)
    (d : Int) (l : List RouteInfo) (r : RouteInfo)
    (htbl : tbl d = some l) (hr : r ∈ l) (ht : r.lastUpdate = t0) :
    ((∃ l2, cleanupExpiredRoutes now timeout tbl d = some l2 ∧ r ∈ l2)
        ↔ now - r.lastUpdate ≤ timeout)
    ∧ (cleanupExpiredRoutes now timeout tbl d = none
        ↔ ∀ r2 ∈ l, timeout < now - r2.lastUpdate)
    ∧ (now = t0 + timeout →
        ∃ l2, cleanupExpiredRoutes now timeout tbl d = some l2 ∧ r ∈ l2)
    ∧ (t0 + timeout < now →
        ∀ l2, cleanupExpiredRoutes now timeout tbl d = some l2 → r ∉ l2)
    ∧ (∀ l2 r2, cleanupExpiredRoutes now timeout tbl d = some l2 → r2 ∈ l2 →
        r2 ∈ l ∧ now - r2.lastUpdate ≤ timeout) := by
  have hc : cleanupExpiredRoutes now timeout tbl d
      = (if (l.filter fun r2 => decide (now - r2.lastUpdate ≤ timeout)).isEmpty
          then none
          else some (l.filter fun r2 => decide (now - r2.lastUpdate ≤ timeout))) := by
    simp only [cleanupExpiredRoutes, htbl]
  have hmem : ∀ r2, r2 ∈ (l.filter fun r2 => decide (now - r2.lastUpdate ≤ timeout))
      ↔ r2 ∈ l ∧ now - r2.lastUpdate ≤ timeout := by
    intro r2
    rw [List.mem_filter]
    simp
  have hkeep : ∀ l2 r2, cleanupExpiredRoutes now timeout tbl d = some l2 →
      r2 ∈ l2 → r2 ∈ l ∧ now - r2.lastUpdate ≤ timeout := by
    intro l2 r2 hl2 hr2
    rw [hc] at hl2
    split at hl2
    · exact absurd hl2 (by simp)
    · injection hl2 with hl2e
      subst hl2e
      exact (hmem r2).mp hr2
  have hfwd : now - r.lastUpdate ≤ timeout →
      ∃ l2, cleanupExpiredRoutes now timeout tbl d = some l2 ∧ r ∈ l2 := by
    intro hle
    have hrf : r ∈ (l.filter fun r2 => decide (now - r2.lastUpdate ≤ timeout)) :=
      (hmem r).mpr ⟨hr, hle⟩
    have hnonempty :
        (l.filter fun r2 => decide (now - r2.lastUpdate ≤ timeout)).isEmpty
          = false := by
      cases hfe : (l.filter fun r2 => decide (now - r2.lastUpdate ≤ timeout)).isEmpty
      · rfl
      · rw [List.isEmpty_iff] at hfe
        rw [hfe] at hrf
        exact absurd hrf (List.not_mem_nil r)
    refine ⟨_, ?_, hrf⟩
    rw [hc, if_neg]
    rw [hnonempty]
    exact Bool.false_ne_true
  refine ⟨⟨fun h => ?_, hfwd⟩, ⟨fun h => ?_, fun h => ?_⟩, fun h => ?_,
    fun h l2 hl2 hrin => ?_, hkeep⟩
  · rcases h with ⟨l2, hl2, hr2⟩
    exact (hkeep l2 r hl2 hr2).2
  · intro r2 hr2
    by_contra hlt
    push_neg at hlt
    have hrf2 := (hmem r2).mpr ⟨hr2, hlt⟩
    rw [hc] at h
    split at h
    · rename_i hempt
      rw [List.isEmpty_iff] at hempt
      rw [hempt] at hrf2
      exact absurd hrf2 (List.not_mem_nil r2)
    · exact absurd h (by simp)
  · rw [hc]
    rw [if_pos]
    rw [List.isEmpty_iff, List.filter_eq_nil_iff]
    intro r2 hr2
    simp only [decide_eq_true_eq]
    exact not_le.mpr (h r2 hr2)
  · apply hfwd
    rw [ht, h]
    simp
  · have h2 := (hkeep l2 r hl2 hrin).2
    rw [ht] at h2
    linarith

/-- Witness for C8 at a concrete input: a one-route table swept with
`now = 1`, `routeTimeout = 2`, route stamped `t0 = 0`. -/
theorem cleanupExpiredRoutes_spec_witness :
    (oneTable (0 : Int) = some [sampleRoute]
      ∧ sampleRoute ∈ [sampleRoute]
      ∧ sampleRoute.lastUpdate = 0)
    ∧ (((∃ l2, cleanupExpiredRoutes 1 2 oneTable 0 = some l2
            ∧ sampleRoute ∈ l2)
          ↔ 1 - sampleRoute.lastUpdate ≤ 2)
      ∧ (cleanupExpiredRoutes 1 2 oneTable 0 = none
          ↔ ∀ r2 ∈ [sampleRoute], 2 < 1 - r2.lastUpdate)
      ∧ ((1 : ℚ) = 0 + 2 →
          ∃ l2, cleanupExpiredRoutes 1 2 oneTable 0 = some l2
            ∧ sampleRoute ∈ l2)
      ∧ ((0 : ℚ) + 2 < 1 →
          ∀ l2, cleanupExpiredRoutes 1 2 oneTable 0 = some l2 →
            sampleRoute ∉ l2)
      ∧ (∀ l2 r2, cleanupExpiredRoutes 1 2 oneTable 0 = some l2 → r2 ∈ l2 →
          r2 ∈ [sampleRoute] ∧ 1 - r2.lastUpdate ≤ 2)) :=
  ⟨⟨rfl, by decide, by decide⟩,
   cleanupExpiredRoutes_spec 1 2 0 oneTable 0 [sampleRoute] sampleRoute rfl
     (by decide) (by decide)⟩

lemma clampLoud (x : ℝ) : (if x < 0.1 then (0.1 : ℝ) else x) = max 0.1 x := by
  split
  · rename_i h
    exact (max_eq_left (le_of_lt h)).symm
  · rename_i h
    exact (max_eq_right (not_lt.mp h)).symm

lemma clampPulse (x : ℝ) : (if x > 0.95 then (0.95 : ℝ) else x) = min 0.95 x := by
  split
  · rename_i h
    exact (min_eq_left (le_of_lt h)).symm
  · rename_i h
    exact (min_eq_right (not_lt.mp h)).symm

lemma batSeq_fst (alpha gamma L0 P0 : ℝ) (times : ℕ → ℝ) (n : ℕ) :
    (batParamSeq alpha gamma L0 P0 times (n + 1)).1
      = max 0.1 (alpha * (batParamSeq alpha gamma L0 P0 times n).1) := by
  rw [batParamSeq, updateBatParameters]
  exact clampLoud _

lemma batSeq_snd (alpha gamma L0 P0 : ℝ) (times : ℕ → ℝ) (n : ℕ) :
    (batParamSeq alpha gamma L0 P0 times (n + 1)).2
      = min 0.95 (P0 * (1 - Real.exp (-gamma * times n))) := by
  rw [batParamSeq, updateBatParameters]
  exact clampPulse _

lemma batSeq_fst_closed (alpha gamma L0 P0 : ℝ) (times : ℕ → ℝ)
    (hα0 : 0 ≤ alpha) (hα1 : alpha ≤ 1) :
    ∀ n, 1 ≤ n →
      (batParamSeq alpha gamma L0 P0 times n).1 = max 0.1 (alpha ^ n * L0) := by
  intro n hn
  induction n with
  | zero => omega
  | succ m ih =>
      rcases Nat.eq_or_lt_of_le hn with h1 | h1
      · rw [← h1]
        rw [batSeq_fst]
        show max 0.1 (alpha * (L0, P0).1) = _
        rw [pow_one]
      · have hm : 1 ≤ m := by omega
        rw [batSeq_fst, ih hm, mul_max_of_nonneg _ _ hα0, ← max_assoc]
        have h2 : max (0.1 : ℝ) (alpha * 0.1) = 0.1 :=
          max_eq_left (by nlinarith)
        rw [h2, pow_succ]
        congr 1
        ring

lemma batSeq_fst_ge (alpha gamma L0 P0 : ℝ) (times : ℕ → ℝ) :
    ∀ n, 1 ≤ n → (0.1 : ℝ) ≤ (batParamSeq alpha gamma L0 P0 times n).1 := by
  intro n hn
  rcases Nat.exists_eq_add_of_le hn with ⟨m, hm⟩
  subst hm
  rw [Nat.add_comm, batSeq_fst]
  exact le_max_left _ _

lemma pulse_raw_le (gamma P0 t : ℝ) (hP0 : 0 ≤ P0) :
    P0 * (1 - Real.exp (-gamma * t)) ≤ P0 := by
  have h := Real.exp_pos (-gamma * t)
  nlinarith

/-- Counterexample to C5 as stated: with `alpha = 1/2`, `gamma = 1`,
initial loudness `1`, initial pulse rate `1/2` and adaptation times
`0, 1, 2, …`, every precondition of the claim holds, yet the pulse rate
stays at most `1/2` forever and hence does not converge to `0.95` (the
code computes `initialPulseRate * (1 - exp (-gamma * t))`, whose limit is
`initialPulseRate`, not the ceiling `0.95`). -/
theorem batParams_pulse_not_to_ceiling :
    (0 < (1 / 2 : ℝ) ∧ (1 / 2 : ℝ) < 1 ∧ 0 < (1 : ℝ)
      ∧ Monotone (fun k : ℕ => (k : ℝ)))
    ∧ ¬ Filter.Tendsto
        (fun n => (batParamSeq (1 / 2) 1 1 (1 / 2)
          (fun k : ℕ => (k : ℝ)) n).2)
        Filter.atTop (nhds 0.95) := by
  have hle : ∀ n,
      (batParamSeq (1 / 2) 1 1 (1 / 2) (fun k : ℕ => (k : ℝ)) n).2
        ≤ 1 / 2 := by
    intro n
    cases n with
    | zero => exact le_refl _
    | succ m =>
        rw [batSeq_snd]
        exact le_trans (min_le_right _ _)
          (pulse_raw_le 1 (1 / 2) _ (by norm_num))
  refine ⟨⟨by norm_num, by norm_num, by norm_num, Nat.mono_cast⟩, ?_⟩
  intro h
  have hev := h.eventually (eventually_gt_nhds
    (show (0.9 : ℝ) < 0.95 by norm_num))
  rcases hev.exists with ⟨n, hn⟩
  have := hle n
  linarith

/-- C5 amended: with `0 < alpha < 1`, `gamma > 0`, a nonnegative initial
pulse rate, and monotonically increasing adaptation times growing without
bound, after every adaptation call the loudness is at least `0.1` and the
pulse rate at most `0.95`; the loudness is non-increasing and converges to
`0.1`, and the pulse rate is non-decreasing and converges to
`min 0.95 initialPulseRate` (not to `0.95` itself unless the initial
pulse rate is at least `0.95`). -/
theorem batParams_clamped_monotone (alpha gamma L0 P0 : ℝ) (times : ℕ → ℝ)
    (hα0 : 0 < alpha) (hα1 : alpha < 1) (hγ : 0 < gamma)
    (hP0 : 0 ≤ P0) (htimes : Monotone times)
    (htop : Filter.Tendsto times Filter.atTop Filter.atTop) :
    (∀ n, 1 ≤ n →
      (0.1 : ℝ) ≤ (batParamSeq alpha gamma L0 P0 times n).1
      ∧ (batParamSeq alpha gamma L0 P0 times n).2 ≤ 0.95)
    ∧ (∀ n, 1 ≤ n →
        (batParamSeq alpha gamma L0 P0 times (n + 1)).1
          ≤ (batParamSeq alpha gamma L0 P0 times n).1)
    ∧ (∀ n, 1 ≤ n →
        (batParamSeq alpha gamma L0 P0 times n).2
          ≤ (batParamSeq alpha gamma L0 P0 times (n + 1)).2)
    ∧ Filter.Tendsto (fun n => (batParamSeq alpha gamma L0 P0 times n).1)
        Filter.atTop (nhds 0.1)
    ∧ Filter.Tendsto (fun n => (batParamSeq alpha gamma L0 P0 times n).2)
        Filter.atTop (nhds (min 0.95 P0)) := by
  have hα0' : (0 : ℝ) ≤ alpha := le_of_lt hα0
  have hα1' : alpha ≤ 1 := le_of_lt hα1
  refine ⟨?_, ?_, ?_, ?_, ?_⟩
  · intro n hn
    constructor
    · exact batSeq_fst_ge alpha gamma L0 P0 times n hn
    · rcases Nat.exists_eq_add_of_le hn with ⟨m, hm⟩
      subst hm
      rw [Nat.add_comm, batSeq_snd]
      exact min_le_left _ _
  · intro n hn
    rw [batSeq_fst]
    have hge := batSeq_fst_ge alpha gamma L0 P0 times n hn
    have hx : (0 : ℝ) ≤ (batParamSeq alpha gamma L0 P0 times n).1 := by
      linarith
    exact max_le hge (by nlinarith)
  · intro n hn
    rcases Nat.exists_eq_add_of_le hn with ⟨m, hm⟩
    subst hm
    rw [Nat.add_comm, batSeq_snd, batSeq_snd]
    refine min_le_min (le_refl _) ?_
    have hexp : Real.exp (-gamma * times (m + 1))
        ≤ Real.exp (-gamma * times m) := by
      apply Real.exp_le_exp.mpr
      have := htimes (Nat.le_succ m)
      nlinarith
    nlinarith
  · have hcf : Filter.Tendsto (fun n : ℕ => max 0.1 (alpha ^ n * L0))
        Filter.atTop (nhds (max 0.1 0)) := by
      have hp := (tendsto_pow_atTop_nhds_zero_of_lt_one hα0' hα1).mul_const L0
      rw [zero_mul] at hp
      exact tendsto_const_nhds.max hp
    rw [max_eq_left (by norm_num : (0 : ℝ) ≤ 0.1)] at hcf
    apply hcf.congr'
    rw [Filter.eventuallyEq_iff_exists_mem]
    exact ⟨{n | 1 ≤ n}, Filter.mem_atTop 1,
      fun n hn => (batSeq_fst_closed alpha gamma L0 P0 times hα0' hα1' n
        hn).symm⟩
  · have hdown : Filter.Tendsto (fun n => -gamma * times n)
        Filter.atTop Filter.atBot := by
      have h1 := htop.const_mul_atTop hγ
      have h2 := Filter.tendsto_neg_atTop_atBot.comp h1
      apply h2.congr
      intro n
      simp [neg_mul]
    have hexp := Real.tendsto_exp_atBot.comp hdown
    have hraw : Filter.Tendsto
        (fun n => P0 * (1 - Real.exp (-gamma * times n)))
        Filter.atTop (nhds (P0 * (1 - 0))) :=
      (tendsto_const_nhds.sub hexp).const_mul P0
    rw [show P0 * ((1 : ℝ) - 0) = P0 by ring] at hraw
    have hshift : Filter.Tendsto
        (fun n => (batParamSeq alpha gamma L0 P0 times (n + 1)).2)
        Filter.atTop (nhds (min 0.95 P0)) := by
      apply (tendsto_const_nhds.min hraw).congr
      intro n
      exact (batSeq_snd alpha gamma L0 P0 times n).symm
    exact (Filter.tendsto_add_atTop_iff_nat 1).mp hshift

/-- Witness for C5's amended theorem at a concrete input:
`alpha = 1/2`, `gamma = 1`, initial loudness `1`, initial pulse rate
`1/2`, adaptation times `0, 1, 2, …`. -/
theorem batParams_clamped_monotone_witness :
    (0 < (1 / 2 : ℝ) ∧ (1 / 2 : ℝ) < 1 ∧ 0 < (1 : ℝ) ∧ 0 ≤ (1 / 2 : ℝ)
      ∧ Monotone (fun k : ℕ => (k : ℝ))
      ∧ Filter.Tendsto (fun k : ℕ => (k : ℝ)) Filter.atTop Filter.atTop)
    ∧ ((∀ n, 1 ≤ n →
        (0.1 : ℝ) ≤ (batParamSeq (1 / 2) 1 1 (1 / 2)
          (fun k : ℕ => (k : ℝ)) n).1
        ∧ (batParamSeq (1 / 2) 1 1 (1 / 2) (fun k : ℕ => (k : ℝ)) n).2
            ≤ 0.95)
      ∧ (∀ n, 1 ≤ n →
          (batParamSeq (1 / 2) 1 1 (1 / 2) (fun k : ℕ => (k : ℝ))
            (n + 1)).1
            ≤ (batParamSeq (1 / 2) 1 1 (1 / 2)
                (fun k : ℕ => (k : ℝ)) n).1)
      ∧ (∀ n, 1 ≤ n →
          (batParamSeq (1 / 2) 1 1 (1 / 2) (fun k : ℕ => (k : ℝ)) n).2
            ≤ (batParamSeq (1 / 2) 1 1 (1 / 2) (fun k : ℕ => (k : ℝ))
                (n + 1)).2)
      ∧ Filter.Tendsto
          (fun n => (batParamSeq (1 / 2) 1 1 (1 / 2)
            (fun k : ℕ => (k : ℝ)) n).1)
          Filter.atTop (nhds 0.1)
      ∧ Filter.Tendsto
          (fun n => (batParamSeq (1 / 2) 1 1 (1 / 2)
            (fun k : ℕ => (k : ℝ)) n).2)
          Filter.atTop (nhds (min 0.95 (1 / 2)))) :=
  ⟨⟨by norm_num, by norm_num, by norm_num, by norm_num, Nat.mono_cast,
    tendsto_natCast_atTop_atTop⟩,
   batParams_clamped_monotone (1 / 2) 1 1 (1 / 2) (fun k : ℕ => (k : ℝ))
     (by norm_num) (by norm_num) (by norm_num) (by norm_num) Nat.mono_cast
     tendsto_natCast_atTop_atTop⟩

end BatRouting

namespace BatRouting

/-- Witness for C2 at a concrete input: bound 1, empty prior table. -/
theorem updateRouteTable_bounded_truncates_worst_witness :
    updateRouteTable 1 emptyTable 0 sampleRoute 0
        = some ((sortByFitness (((emptyTable (0 : Int)).getD [])
            ++ [sampleRoute])).take 1)
    ∧ ((sortByFitness (((emptyTable (0 : Int)).getD [])
        ++ [sampleRoute])).take 1).length ≤ 1
    ∧ List.Perm
        (((sortByFitness (((emptyTable (0 : Int)).getD [])
            ++ [sampleRoute])).take 1)
          ++ ((sortByFitness (((emptyTable (0 : Int)).getD [])
            ++ [sampleRoute])).drop 1))
        (((emptyTable (0 : Int)).getD []) ++ [sampleRoute])
    ∧ ∀ a ∈ (sortByFitness (((emptyTable (0 : Int)).getD [])
        ++ [sampleRoute])).take 1,
        ∀ b ∈ (sortByFitness (((emptyTable (0 : Int)).getD [])
          ++ [sampleRoute])).drop 1,
          a.fitness ≤ b.fitness :=
  updateRouteTable_bounded_truncates_worst 1 emptyTable 0 sampleRoute

/-- Witness for C7 at a concrete input: three nodes, node 7 probing with
pulse rate one half and all draws zero. -/
theorem discoverRoutes_char_witness :
    broadcastRouteDiscovery 7 1
        ∈ discoverRoutes 3 7 (1 / 2) (fun _ => 0)
      ↔ ∃ d : ℕ, d < 3 ∧ Int.ofNat d ≠ 7
          ∧ (fun _ : ℕ => (0 : ℚ)) d < 1 / 2
          ∧ broadcastRouteDiscovery 7 1
              = { sourceId := 7, destId := Int.ofNat d
                , visitedNodes := [7], accumulatedFitness := 0 } :=
  discoverRoutes_char 3 7 (1 / 2) (fun _ => 0) (broadcastRouteDiscovery 7 1)

end BatRouting
